import Mathlib

/-!
Verification of the LSP workspace command selector
(`crates/lsp_workspace_command/src/lsp_workspace_command.rs`).

The development shallowly embeds the selector's delegate: the candidate
index built at construction time, the match-list update for a query, the
selection-cursor clamp, and the confirm/dismiss path.  Machine integers
are modelled as `Nat` (no arithmetic here can overflow in the source:
indices are bounded by list lengths), the `HashMap<String, _>` backing
the command index is modelled as an association list with last-write-wins
insertion, and fallible operations return `Option`.
-/

namespace LspWorkspaceCommand

/-- A `fuzzy::StringMatchCandidate`: a candidate id together with the display
string it was built from. -/
structure StringMatchCandidate where
  id : Nat
  string : String
deriving Repr, DecidableEq

/-- A `fuzzy::StringMatch`: a match produced by an evaluation. The source
stores `score : f64`; the only score the selector itself ever writes is
`0.0` (empty query), so scores are modelled as `Int`, with the fuzzy
scorer a black box. -/
structure StringMatch where
  candidate_id : Nat
  string : String
  positions : List Nat
  score : Int
deriving Repr, DecidableEq

/-- A language server as the selector sees it: its name, its
`server_id`, and the `execute_command_provider` capability, which is
optional and carries the advertised command list
(`capabilities().execute_command_provider.map(|opt| opt.commands)`). -/
structure LanguageServer where
  name : String
  server_id : Nat
  execute_command_provider : Option (List String)
deriving Repr, DecidableEq

/-- One step of `commands.insert(key, value)` on the
`HashMap<String, (String, LanguageServerId)>`: if the key is present the
value is replaced (std `HashMap` last-write-wins), otherwise the entry is
appended.  Iteration order of the model is first-insertion order; the
source's `HashMap` promises no particular order and the development never
relies on which order it is, only that `keys()` enumerates each entry
exactly once. -/
def hashInsert (m : List (String × String × Nat)) (k : String) (v : String × Nat) :
    List (String × String × Nat) :=
  if (m.map Prod.fst).contains k then
    m.map fun p => if p.1 = k then (k, v) else p
  else
    m ++ [(k, v)]

/-- The command-index construction loop of
`LspWorkspaceCommandSelectorDelegate::new`: for every language server,
take its advertised commands (`map_or_else(|| vec![], |opt| opt.commands)`)
and insert `"{name}: {command}" -> (command, server_id)` into the map. -/
def buildCommands (language_servers : List LanguageServer) :
    List (String × String × Nat) :=
  language_servers.foldl
    (fun m language_server =>
      (language_server.execute_command_provider.getD []).foldl
        (fun m command =>
          hashInsert m (language_server.name ++ ": " ++ command)
            (command, language_server.server_id))
        m)
    []

/-- The candidate-list construction of
`LspWorkspaceCommandSelectorDelegate::new`:
`commands.keys().enumerate().map(|(idx, command)| StringMatchCandidate::new(idx, &command))`. -/
def buildCandidates (commands : List (String × String × Nat)) :
    List StringMatchCandidate :=
  ((commands.map Prod.fst).enum).map fun p => ⟨p.1, p.2⟩

/-- The selector delegate's state that the core operates on.  The weak
entity back-reference, the `LspStore` handle and the window are the UI
collaborators; the live-server registry the store provides at confirm
time is passed to `confirm` explicitly. -/
structure LspWorkspaceCommandSelectorDelegate where
  candidates : List StringMatchCandidate
  «matches» : List StringMatch
  selected_index : Nat
  commands : List (String × String × Nat)
deriving Repr

/-- Constructor `LspWorkspaceCommandSelectorDelegate::new`: build the command map
from the buffer's language servers, derive the candidate list from the
map's keys, and start with no matches and cursor 0. -/
def LspWorkspaceCommandSelectorDelegate.new
    (language_servers : List LanguageServer) :
    LspWorkspaceCommandSelectorDelegate :=
  let commands := buildCommands language_servers
  { candidates := buildCandidates commands
    «matches» := []
    selected_index := 0
    commands := commands }

/-- The scoring black box behind `fuzzy::match_strings`: for a query and
a candidate string, either `none` (candidate filtered out) or the matched
character positions and a score. -/
def Scorer : Type := String → String → Option (List Nat × Int)

/-- Modelled from the spec: `fuzzy::match_strings` (crate `fuzzy`, which
is not under `src/`; only its caller is).  Per the spec it scores every
candidate with the black-box scorer, filters out non-matching candidates,
sorts by descending score with ties broken by ascending candidate index,
and caps the result at `max_results`. -/
def match_strings (scorer : Scorer) (candidates : List StringMatchCandidate)
    (query : String) (max_results : Nat) : List StringMatch :=
  let scored := candidates.filterMap fun c =>
    (scorer query c.string).map fun ps =>
      { candidate_id := c.id
        string := c.string
        positions := ps.1
        score := ps.2 }
  (scored.mergeSort fun a b =>
    b.score < a.score ∨ (a.score = b.score ∧ a.candidate_id ≤ b.candidate_id)).take
    max_results

/-- Function `update_matches`, after its spawned task has completed and been
applied: compute the new match list (identity matches with empty
positions and score 0 for the empty query, `match_strings` with a cap of
100 otherwise) and install it, re-clamping the cursor to
`selected_index.min(matches.len().saturating_sub(1))` (`Nat` subtraction
is saturating). -/
def update_matches (scorer : Scorer)
    (d : LspWorkspaceCommandSelectorDelegate) (query : String) :
    LspWorkspaceCommandSelectorDelegate :=
  let «matches» :=
    if query.isEmpty then
      d.candidates.enum.map fun ic =>
        { candidate_id := ic.1
          string := ic.2.string
          positions := []
          score := 0 }
    else
      match_strings scorer d.candidates query 100
  { d with
    «matches» := «matches»
    selected_index := min d.selected_index («matches».length - 1) }

/-- Setter `set_selected_index`: stores the caller's index verbatim. -/
def set_selected_index (d : LspWorkspaceCommandSelectorDelegate) (ix : Nat) :
    LspWorkspaceCommandSelectorDelegate :=
  { d with selected_index := ix }

/-- Accessor `match_count`. -/
def match_count (d : LspWorkspaceCommandSelectorDelegate) : Nat :=
  d.«matches».length

/-- The `lsp::ExecuteCommandParams` the dispatch task sends: the command
token and `arguments: vec![]`. -/
structure ExecuteCommandParams where
  command : String
  arguments : List String
deriving Repr, DecidableEq

/-- An execute-command request as put on the wire: the target server id
and the params. -/
structure ExecuteCommandRequest where
  server_id : Nat
  params : ExecuteCommandParams
deriving Repr, DecidableEq

/-- The externally observable effect of one `confirm` call: the request
dispatched (if any) and how many `DismissEvent`s were emitted. -/
structure ConfirmEffects where
  request : Option ExecuteCommandRequest
  dismiss_events : Nat
deriving Repr, DecidableEq

/-- Handler `dismissed`: emits `DismissEvent` on the owning selector exactly once
(the weak-entity upgrade failing is a UI-lifecycle condition outside this
model). -/
def dismissed : Nat := 1

/-- The request `confirm` builds for the candidate at the cursor: look
the display string up in the command map; if the recorded server is
still live, an execute-command request with the recorded token and
`arguments: vec![]`, otherwise nothing. -/
def confirmRequest (d : LspWorkspaceCommandSelectorDelegate)
    (live_servers : List Nat) (cand : StringMatchCandidate) :
    Option ExecuteCommandRequest :=
  match List.lookup cand.string d.commands with
  | some (command, language_server_id) =>
    if live_servers.contains language_server_id then
      some { server_id := language_server_id
             params := { command := command, arguments := [] } }
    else none
  | none => none

/-- Handler `confirm`: look up the match at the cursor; if present, index
`self.candidates[mat.candidate_id]` (a panicking index, modelled as the
`none` result), look the display string up in the command map, and if the
owning server is still live dispatch an execute-command request with the
recorded token and no arguments.  In every non-panicking case `dismissed`
runs once.  `confirm` reads but never writes the delegate's fields —
state does not change other than closing. -/
def confirm (d : LspWorkspaceCommandSelectorDelegate)
    (live_servers : List Nat) : Option ConfirmEffects :=
  match d.«matches»[d.selected_index]? with
  | some mat =>
    match d.candidates[mat.candidate_id]? with
    | none => none
    | some cand =>
      some { request := confirmRequest d live_servers cand
             dismiss_events := dismissed }
  | none => some { request := none, dismiss_events := dismissed }


theorem buildCandidates_getElem? (commands : List (String × String × Nat)) (i : Nat) :
    (buildCandidates commands)[i]? =
      ((commands.map Prod.fst)[i]?).map fun k => (⟨i, k⟩ : StringMatchCandidate) := by
  simp only [buildCandidates, List.getElem?_map, List.getElem?_enum, Option.map_map]
  cases commands[i]? <;> rfl

theorem buildCandidates_length (commands : List (String × String × Nat)) :
    (buildCandidates commands).length = commands.length := by
  simp [buildCandidates]

theorem mem_buildCandidates {commands : List (String × String × Nat)}
    {c : StringMatchCandidate} (h : c ∈ buildCandidates commands) :
    c.id < commands.length ∧ (commands.map Prod.fst)[c.id]? = some c.string := by
  simp only [buildCandidates, List.mem_map] at h
  obtain ⟨⟨i, s⟩, hmem, rfl⟩ := h
  rw [List.mk_mem_enum_iff_getElem?] at hmem
  refine ⟨?_, hmem⟩
  have := (List.getElem?_eq_some.mp hmem).1
  simpa using this

theorem lookup_isSome_of_mem_keys {m : List (String × String × Nat)} {k : String}
    (h : k ∈ m.map Prod.fst) : (List.lookup k m).isSome := by
  induction m with
  | nil => simp at h
  | cons p t ih =>
    obtain ⟨k', v⟩ := p
    rw [List.lookup_cons]
    by_cases hk : k = k'
    · simp [hk]
    · have hne : (k == k') = false := by simp [hk]
      rw [hne]
      simp only [List.map_cons, List.mem_cons] at h
      exact ih (h.resolve_left hk)

theorem update_matches_empty_matches_getElem? (scorer : Scorer)
    (d : LspWorkspaceCommandSelectorDelegate) (i : Nat) :
    (update_matches scorer d "").«matches»[i]? =
      (d.candidates[i]?).map fun c =>
        ({ candidate_id := i, string := c.string, positions := [], score := 0 } :
          StringMatch) := by
  simp only [update_matches, show ("" : String).isEmpty = true from rfl, if_true,
    List.getElem?_map, List.getElem?_enum, Option.map_map]
  cases d.candidates[i]? <;> rfl

/-- A scorer that matches nothing: used to evaluate the pipeline at
concrete inputs. -/
def noMatchScorer : Scorer := fun _ _ => none

/-- A one-server registry used for concrete evaluations. -/
def serverFmt : LanguageServer := ⟨"s", 1, some ["fmt"]⟩

/-- The delegate freshly constructed from `serverFmt`. -/
def dFmt : LspWorkspaceCommandSelectorDelegate :=
  LspWorkspaceCommandSelectorDelegate.new [serverFmt]

/-- Delegate `dFmt` after an empty-query evaluation has been applied: one match. -/
def dFmtMatched : LspWorkspaceCommandSelectorDelegate :=
  update_matches noMatchScorer dFmt ""

/-- A delegate over 101 candidates (as `new` would build from a server
advertising 101 distinct commands); exercises the missing cap on the
empty-query path. -/
def dOverfull : LspWorkspaceCommandSelectorDelegate :=
  { candidates := (List.range 101).map fun i => ⟨i, "c"⟩
    «matches» := []
    selected_index := 0
    commands := [] }

/-- C1: for the empty query, `update_matches` installs exactly one match
per candidate, in candidate order: the i-th match has `candidate_id` i,
the i-th candidate's display string, no highlight positions, and score
0. -/
theorem update_matches_empty_query (scorer : Scorer)
    (d : LspWorkspaceCommandSelectorDelegate) :
    (update_matches scorer d "").«matches».length = d.candidates.length ∧
    ∀ i : Nat, (update_matches scorer d "").«matches»[i]? =
      (d.candidates[i]?).map fun c =>
        ({ candidate_id := i, string := c.string, positions := [], score := 0 } :
          StringMatch) := by
  refine ⟨?_, fun i => update_matches_empty_matches_getElem? scorer d i⟩
  simp [update_matches, show ("" : String).isEmpty = true from rfl]

/-- C2, counterexample: with 101 candidates and the empty query,
`update_matches` installs 101 matches — the empty-query path has no cap,
so the match list is not bounded by 100 for every query. -/
theorem update_matches_over_100_counterexample :
    ¬ (update_matches noMatchScorer dOverfull "").«matches».length ≤ 100 := by
  have h : (update_matches noMatchScorer dOverfull "").«matches».length = 101 := by
    simp [update_matches, dOverfull, show ("" : String).isEmpty = true from rfl]
  omega

/-- C2, amended: for every non-empty query the installed match list has
length at most 100 (the cap passed to `match_strings`); for the empty
query its length equals the candidate count, which can exceed 100. -/
theorem update_matches_length_bound (scorer : Scorer)
    (d : LspWorkspaceCommandSelectorDelegate) (query : String) :
    (query.isEmpty = false →
      (update_matches scorer d query).«matches».length ≤ 100) ∧
    (query.isEmpty = true →
      (update_matches scorer d query).«matches».length = d.candidates.length) := by
  constructor
  · intro hq
    simp [update_matches, hq, match_strings]
  · intro hq
    simp [update_matches, hq]

/-- Witness for the amended C2 at concrete inputs. -/
theorem update_matches_length_bound_witness :
    (("q" : String).isEmpty = false ∧
      (update_matches noMatchScorer dFmt "q").«matches».length ≤ 100) ∧
    (("" : String).isEmpty = true ∧
      (update_matches noMatchScorer dFmt "").«matches».length =
        dFmt.candidates.length) :=
  ⟨⟨rfl, (update_matches_length_bound noMatchScorer dFmt "q").1 rfl⟩,
   ⟨rfl, (update_matches_length_bound noMatchScorer dFmt "").2 rfl⟩⟩

/-- C3: after every match-list replacement the cursor equals
`min(previous, new_count - 1)` with `Nat` (saturating) subtraction, hence
lies below `max 1 new_count`, and a previously in-range cursor is left
unchanged. -/
theorem update_matches_clamps_selected_index (scorer : Scorer)
    (d : LspWorkspaceCommandSelectorDelegate) (query : String) :
    (update_matches scorer d query).selected_index =
      min d.selected_index ((update_matches scorer d query).«matches».length - 1) ∧
    (update_matches scorer d query).selected_index <
      max 1 (update_matches scorer d query).«matches».length ∧
    (d.selected_index < (update_matches scorer d query).«matches».length →
      (update_matches scorer d query).selected_index = d.selected_index) := by
  have h : (update_matches scorer d query).selected_index =
      min d.selected_index ((update_matches scorer d query).«matches».length - 1) := rfl
  refine ⟨h, ?_, ?_⟩ <;>
    · rw [h]
      generalize (update_matches scorer d query).«matches».length = n
      omega

/-- Witness for C3's in-range-cursor clause at concrete inputs. -/
theorem update_matches_clamps_selected_index_witness :
    dFmt.selected_index < (update_matches noMatchScorer dFmt "").«matches».length ∧
    (update_matches noMatchScorer dFmt "").selected_index = dFmt.selected_index :=
  ⟨by decide,
   (update_matches_clamps_selected_index noMatchScorer dFmt "").2.2 (by decide)⟩

/-- C4: two providers whose commands collapse to the same display string
leave exactly one entry in the command map, holding the later-inserted
provider's (token, server-id) pair — last write wins in the `HashMap`. -/
theorem duplicate_display_string_last_write_wins
    (name command : String) (id1 id2 : Nat) :
    buildCommands [⟨name, id1, some [command]⟩, ⟨name, id2, some [command]⟩] =
      [(name ++ ": " ++ command, command, id2)] := by
  simp [buildCommands, hashInsert]

/-- C5: when no match exists at the cursor, `confirm` dispatches no
request and only closes: it emits the dismiss event exactly once. -/
theorem confirm_no_match_no_dispatch
    (d : LspWorkspaceCommandSelectorDelegate) (live_servers : List Nat)
    (h : d.«matches»[d.selected_index]? = none) :
    confirm d live_servers = some { request := none, dismiss_events := 1 } := by
  simp [confirm, h, dismissed]

/-- Witness for C5: a freshly built delegate has an empty match list. -/
theorem confirm_no_match_no_dispatch_witness :
    dFmt.«matches»[dFmt.selected_index]? = none ∧
    confirm dFmt [1] = some { request := none, dismiss_events := 1 } :=
  ⟨rfl, confirm_no_match_no_dispatch dFmt [1] rfl⟩

/-- C6: when the match at the cursor resolves to a server id with no
live provider, `confirm` dispatches no request and still emits the
dismiss event exactly once. -/
theorem confirm_dead_provider_no_dispatch
    (d : LspWorkspaceCommandSelectorDelegate) (live_servers : List Nat)
    (mat : StringMatch) (cand : StringMatchCandidate)
    (command : String) (sid : Nat)
    (h1 : d.«matches»[d.selected_index]? = some mat)
    (h2 : d.candidates[mat.candidate_id]? = some cand)
    (h3 : List.lookup cand.string d.commands = some (command, sid))
    (h4 : live_servers.contains sid = false) :
    confirm d live_servers = some { request := none, dismiss_events := 1 } := by
  have h4m : sid ∉ live_servers := by simpa using h4
  simp [confirm, confirmRequest, h1, h2, h3, h4m, dismissed]

/-- Witness for C6: confirm over `dFmtMatched` with no live servers. -/
theorem confirm_dead_provider_no_dispatch_witness :
    dFmtMatched.«matches»[dFmtMatched.selected_index]? =
      some { candidate_id := 0, string := "s: fmt", positions := [], score := 0 } ∧
    confirm dFmtMatched [] = some { request := none, dismiss_events := 1 } :=
  ⟨rfl,
   confirm_dead_provider_no_dispatch dFmtMatched []
     { candidate_id := 0, string := "s: fmt", positions := [], score := 0 }
     ⟨0, "s: fmt"⟩ "fmt" 1 rfl rfl rfl rfl⟩

/-- C7: whenever `confirm` dispatches a request, that request carries
exactly the command token recorded in the command map for the selected
match's display string, an empty argument list, and is addressed to the
live server id recorded in the same entry. -/
theorem confirm_dispatch_faithful
    (d : LspWorkspaceCommandSelectorDelegate) (live_servers : List Nat)
    (eff : ConfirmEffects) (r : ExecuteCommandRequest)
    (h1 : confirm d live_servers = some eff)
    (h2 : eff.request = some r) :
    ∃ mat cand,
      d.«matches»[d.selected_index]? = some mat ∧
      d.candidates[mat.candidate_id]? = some cand ∧
      List.lookup cand.string d.commands = some (r.params.command, r.server_id) ∧
      r.params.arguments = [] ∧
      live_servers.contains r.server_id = true := by
  unfold confirm at h1
  split at h1
  case h_1 mat hm =>
    split at h1
    · exact absurd h1 (by simp)
    case h_2 cand hc =>
      rw [Option.some_inj] at h1
      subst h1
      simp only at h2
      unfold confirmRequest at h2
      split at h2
      case h_1 command sid hl =>
        split at h2
        case isTrue hlive =>
          rw [Option.some_inj] at h2
          subst h2
          exact ⟨mat, cand, hm, hc, hl, rfl, by simpa using hlive⟩
        case isFalse hlive => exact absurd h2 (by simp)
      case h_2 => exact absurd h2 (by simp)
  case h_2 hm =>
    rw [Option.some_inj] at h1
    subst h1
    exact absurd h2 (by simp)

/-- Witness for C7: a concrete dispatching confirm. -/
theorem confirm_dispatch_faithful_witness :
    confirm dFmtMatched [1] =
      some { request := some ⟨1, { command := "fmt", arguments := [] }⟩
             dismiss_events := 1 } ∧
    ∃ mat cand,
      dFmtMatched.«matches»[dFmtMatched.selected_index]? = some mat ∧
      dFmtMatched.candidates[mat.candidate_id]? = some cand ∧
      List.lookup cand.string dFmtMatched.commands = some ("fmt", 1) ∧
      ([] : List String) = [] ∧
      List.contains [1] 1 = true :=
  ⟨rfl,
   confirm_dispatch_faithful dFmtMatched [1]
     { request := some ⟨1, { command := "fmt", arguments := [] }⟩
       dismiss_events := 1 }
     ⟨1, { command := "fmt", arguments := [] }⟩ rfl rfl⟩

/-- C8: at construction the candidate list and the command map are in
1:1 correspondence: equal lengths, the i-th candidate is exactly index i
paired with the i-th key in iteration order, and every candidate's
display string is a key of the map. -/
theorem new_candidates_commands_one_to_one
    (language_servers : List LanguageServer) :
    (LspWorkspaceCommandSelectorDelegate.new language_servers).candidates.length =
      (LspWorkspaceCommandSelectorDelegate.new language_servers).commands.length ∧
    (∀ i : Nat,
      (LspWorkspaceCommandSelectorDelegate.new language_servers).candidates[i]? =
        (((LspWorkspaceCommandSelectorDelegate.new
              language_servers).commands.map Prod.fst)[i]?).map
          fun k => (⟨i, k⟩ : StringMatchCandidate)) ∧
    ∀ c ∈ (LspWorkspaceCommandSelectorDelegate.new language_servers).candidates,
      c.string ∈
        (LspWorkspaceCommandSelectorDelegate.new language_servers).commands.map
          Prod.fst := by
  refine ⟨buildCandidates_length _, fun i => buildCandidates_getElem? _ i,
    fun c hc => ?_⟩
  exact List.getElem?_mem (mem_buildCandidates hc).2

/-- Witness for C8's per-candidate clause at a concrete delegate. -/
theorem new_candidates_commands_one_to_one_witness :
    ((⟨0, "s: fmt"⟩ : StringMatchCandidate) ∈ dFmt.candidates) ∧
    "s: fmt" ∈ dFmt.commands.map Prod.fst :=
  ⟨by decide,
   (new_candidates_commands_one_to_one [serverFmt]).2.2 ⟨0, "s: fmt"⟩ (by decide)⟩

/-- C9: a provider advertising zero commands (absent capability or empty
command list) contributes no command entry and hence no candidate. -/
theorem zero_commands_contributes_nothing (xs ys : List LanguageServer)
    (s : LanguageServer)
    (h : s.execute_command_provider = none ∨ s.execute_command_provider = some []) :
    buildCommands (xs ++ s :: ys) = buildCommands (xs ++ ys) ∧
    buildCandidates (buildCommands (xs ++ s :: ys)) =
      buildCandidates (buildCommands (xs ++ ys)) := by
  have hstep : ∀ m : List (String × String × Nat),
      (s.execute_command_provider.getD []).foldl
        (fun m command =>
          hashInsert m (s.name ++ ": " ++ command) (command, s.server_id)) m = m := by
    intro m
    rcases h with h | h <;> simp [h]
  have hmain : buildCommands (xs ++ s :: ys) = buildCommands (xs ++ ys) := by
    simp only [buildCommands, List.foldl_append, List.foldl_cons]
    rw [hstep]
  exact ⟨hmain, by rw [hmain]⟩

/-- Witness for C9: a capability-less provider appended to a one-server
registry changes nothing. -/
theorem zero_commands_contributes_nothing_witness :
    ((⟨"z", 9, none⟩ : LanguageServer).execute_command_provider = none ∨
      (⟨"z", 9, none⟩ : LanguageServer).execute_command_provider = some []) ∧
    buildCommands ([serverFmt] ++ (⟨"z", 9, none⟩ : LanguageServer) :: []) =
      buildCommands ([serverFmt] ++ []) :=
  ⟨Or.inl rfl,
   (zero_commands_contributes_nothing [serverFmt] [] ⟨"z", 9, none⟩ (Or.inl rfl)).1⟩

/-- C10: every match installed by `update_matches` over a
construction-time index has an in-range `candidate_id`, and the
candidate there carries a display string that is a key of the command
map — `confirm`'s direct indexing and map lookup cannot fail. -/
theorem installed_matches_within_index (scorer : Scorer)
    (language_servers : List LanguageServer)
    (d : LspWorkspaceCommandSelectorDelegate) (query : String)
    (hc : d.candidates = buildCandidates (buildCommands language_servers))
    (hk : d.commands = buildCommands language_servers) :
    ∀ mat ∈ (update_matches scorer d query).«matches»,
      mat.candidate_id < d.candidates.length ∧
      ∃ cand, d.candidates[mat.candidate_id]? = some cand ∧
        (List.lookup cand.string d.commands).isSome := by
  intro mat hmat
  by_cases hq : query.isEmpty
  · simp only [update_matches, hq, if_true, List.mem_map] at hmat
    obtain ⟨⟨i, c⟩, hmem, rfl⟩ := hmat
    rw [List.mk_mem_enum_iff_getElem?] at hmem
    refine ⟨(List.getElem?_eq_some.mp hmem).1, c, hmem, ?_⟩
    rw [hk]
    apply lookup_isSome_of_mem_keys
    have hcmem : c ∈ d.candidates := List.getElem?_mem hmem
    rw [hc] at hcmem
    exact List.getElem?_mem (mem_buildCandidates hcmem).2
  · have hq' : query.isEmpty = false := by simpa using hq
    simp only [update_matches, hq', if_false, match_strings] at hmat
    replace hmat := List.mem_of_mem_take hmat
    rw [List.mem_mergeSort, List.mem_filterMap] at hmat
    obtain ⟨c, hcmem, hsc⟩ := hmat
    obtain ⟨ps, hps, rfl⟩ := Option.map_eq_some'.mp hsc
    have hcmem' : c ∈ buildCandidates (buildCommands language_servers) := by
      rw [hc] at hcmem; exact hcmem
    have hcb := mem_buildCandidates hcmem'
    refine ⟨?_, ⟨c.id, c.string⟩, ?_, ?_⟩
    · rw [hc, buildCandidates_length]
      exact hcb.1
    · rw [hc, buildCandidates_getElem?, hcb.2]
      rfl
    · rw [hk]
      exact lookup_isSome_of_mem_keys (List.getElem?_mem hcb.2)

/-- Witness for C10 at a concrete delegate, query and match. -/
theorem installed_matches_within_index_witness :
    ((⟨0, "s: fmt", [], 0⟩ : StringMatch) ∈
        (update_matches noMatchScorer dFmt "").«matches») ∧
    ((0 : Nat) < dFmt.candidates.length ∧
      ∃ cand, dFmt.candidates[(0 : Nat)]? = some cand ∧
        (List.lookup cand.string dFmt.commands).isSome) :=
  ⟨by decide,
   installed_matches_within_index noMatchScorer [serverFmt] dFmt "" rfl rfl
     ⟨0, "s: fmt", [], 0⟩ (by decide)⟩

end LspWorkspaceCommand
